import Mathlib

/-!
Verification of the gostatic asset bundler (main.go, both program variants)
against its natural-language specification.

Modelling conventions used throughout:
* Go strings are modelled as lists of Unicode code points (`List Nat`), the
  sequence produced by `[]rune(input)` / by reading runes from a buffer.
* Byte sequences are modelled as `List Nat` with every element below 256.
* The Go standard library collaborators (gzip, base64) and the base256
  encoder library are external to this repository; they are modelled from
  the specification at their interface boundary, and each such definition
  carries a doc comment starting with "Modelled from the spec:".
-/

namespace Gostatic

/-- Model of the rune classifier `unicode.IsLetter` from main.go. The model
covers the ASCII range exactly, plus the CJK Unified Ideographs block
U+4E00 to U+9FFF, which the Go unicode tables classify as letters (category
Lo). Code points outside this fragment are treated as non-letters; the Go
tables extend the letter classification to all other Unicode letter
categories, which the claims under verification do not depend on. -/
def goIsLetter (r : Nat) : Bool :=
  decide ((65 ≤ r ∧ r ≤ 90) ∨ (97 ≤ r ∧ r ≤ 122) ∨ (19968 ≤ r ∧ r ≤ 40959))

/-- Model of `unicode.ToUpper` from main.go, on the same fragment as
`goIsLetter`: ASCII lowercase letters map to their uppercase form, and
every other modelled code point is unchanged. In the Go tables every code
point of the modelled fragment other than an ASCII lowercase letter
(uppercase ASCII, digits, punctuation, CJK ideographs) has no simple
uppercase mapping and is likewise returned unchanged. -/
def goToUpper (r : Nat) : Nat :=
  if 97 ≤ r ∧ r ≤ 122 then r - 32 else r

/-- Model of `unicode.IsUpper` on the same fragment as `goIsLetter`: only
the ASCII uppercase letters are uppercase. In the Go tables no code point
of the modelled fragment outside 65..90 is in category Lu; in particular
CJK ideographs are caseless and not uppercase. -/
def goIsUpper (r : Nat) : Bool :=
  decide (65 ≤ r ∧ r ≤ 90)

/-- Number of bytes of the UTF-8 encoding of one code point, as used by
the Go built-in `len` on a string. -/
def utf8Size (r : Nat) : Nat :=
  if r < 128 then 1 else if r < 2048 then 2 else if r < 65536 then 3 else 4

/-- Byte length of a Go string, `len(input)`: the sum of the UTF-8 sizes
of its code points. -/
def byteLen (s : List Nat) : Nat :=
  (s.map utf8Size).sum

/-- Loop of `snakify` from main.go. `blen` is `len(input)` (the byte
length, which the source compares against the rune index `i`), `i` is the
current rune index, and `lastWasSnake` is the flag of the source, which
the source initialises to true, sets to false on every letter, and never
sets back to true. A letter is copied; a non-letter is skipped while
`lastWasSnake` holds, otherwise it emits the separator 95 (`_`) unless
`i == len(input)-1`. -/
def snakifyAux (blen : Nat) : Nat → Bool → List Nat → List Nat
  | _, _, [] => []
  | i, lastWasSnake, r :: rest =>
    if goIsLetter r then r :: snakifyAux blen (i + 1) false rest
    else if lastWasSnake then snakifyAux blen (i + 1) lastWasSnake rest
    else if i ≠ blen - 1 then 95 :: snakifyAux blen (i + 1) lastWasSnake rest
    else snakifyAux blen (i + 1) lastWasSnake rest

/-- `snakify` from main.go (identical in both program variants): scans the
runes of the input, copying letters and handling non-letters through the
`lastWasSnake` flag and the index comparison of `snakifyAux`. -/
def snakify (input : List Nat) : List Nat :=
  snakifyAux (byteLen input) 0 true input

/-- Loop of `camelize` from main.go: the `needCamel` flag starts true; a
letter is emitted uppercased when the flag is set (clearing it) and
verbatim otherwise; every non-letter sets the flag and emits nothing. -/
def camelizeAux : Bool → List Nat → List Nat
  | _, [] => []
  | needCamel, r :: rest =>
    if goIsLetter r then
      if needCamel then goToUpper r :: camelizeAux false rest
      else r :: camelizeAux false rest
    else camelizeAux true rest

/-- `camelize` from main.go (identical in both program variants). -/
def camelize (input : List Nat) : List Nat :=
  camelizeAux true input

/-- Modelled from the spec: value of position `n` (below 64) in the
standard base64 alphabet used by `encoding/base64` StdEncoding, as a code
point: positions 0..25 are A..Z, 26..51 are a..z, 52..61 are 0..9,
62 is plus and 63 is slash. -/
def b64char (n : Nat) : Nat :=
  if n < 26 then 65 + n
  else if n < 52 then 97 + (n - 26)
  else if n < 62 then 48 + (n - 52)
  else if n = 62 then 43
  else 47

/-- Modelled from the spec: inverse of the standard base64 alphabet, as
used by the base64 decoding in the generated unit; a code point outside
the alphabet is rejected. -/
def b64val (c : Nat) : Option Nat :=
  if 65 ≤ c ∧ c ≤ 90 then some (c - 65)
  else if 97 ≤ c ∧ c ≤ 122 then some (c - 97 + 26)
  else if 48 ≤ c ∧ c ≤ 57 then some (c - 48 + 52)
  else if c = 43 then some 62
  else if c = 47 then some 63
  else none

/-- Modelled from the spec: `base64.StdEncoding.EncodeToString`, the
radix-64 textual encoding invoked by `writeDirectory` in the base64
program variant. Every 3 input bytes become 4 alphabet characters; a
final group of 1 or 2 bytes is padded with the character 61 (`=`) per the
standard base64 rules. -/
def encode64bytes : List Nat → List Nat
  | [] => []
  | [a] => [b64char (a / 4), b64char (a % 4 * 16), 61, 61]
  | [a, b] => [b64char (a / 4), b64char (a % 4 * 16 + b / 16), b64char (b % 16 * 4), 61]
  | a :: b :: c :: rest =>
    b64char (a / 4) :: b64char (a % 4 * 16 + b / 16) ::
      b64char (b % 16 * 4 + c / 64) :: b64char (c % 64) :: encode64bytes rest

/-- Modelled from the spec: `base64.StdEncoding.DecodeString`, the
radix-64 textual decoding run by the generated unit of the base64 program
variant at init time. The text must consist of 4-character groups; padding
with 61 (`=`) is accepted only in the final group; any character outside
the alphabet, or a length that is not a multiple of 4, is rejected. -/
def decode64bytes : List Nat → Option (List Nat)
  | [] => some []
  | c1 :: c2 :: c3 :: c4 :: rest =>
    (b64val c1).bind fun v1 =>
    (b64val c2).bind fun v2 =>
    if c3 = 61 then
      if c4 = 61 ∧ rest = [] then some [v1 * 4 + v2 / 16] else none
    else
      (b64val c3).bind fun v3 =>
      if c4 = 61 then
        if rest = [] then some [v1 * 4 + v2 / 16, v2 % 16 * 16 + v3 / 4] else none
      else
        (b64val c4).bind fun v4 =>
        (decode64bytes rest).map
          (fun l => (v1 * 4 + v2 / 16) :: (v2 % 16 * 16 + v3 / 4) ::
            (v3 % 4 * 64 + v4) :: l)
  | _ => none

/-- Modelled from the spec: `base256.StdEncoding.EncodeToString`, the
radix-256 textual encoding invoked by `writeDirectory` in the base256
program variant: byte value `b` maps to the code point 97 + `b`, i.e. the
code point of the letter a shifted up by the byte value. -/
def encode256 : List Nat → List Nat
  | [] => []
  | b :: rest => (97 + b) :: encode256 rest

/-- Decoding of one rune by the radix-256 decode embedded in the generated
unit (main.go template, `byte(r - base256)` with `base256 = 97`): the Go
conversion to `byte` of the signed 32-bit difference keeps the low 8 bits,
i.e. the difference modulo 256, non-negative. -/
def decByte256 (r : Nat) : Nat :=
  (((r : Int) - 97) % 256).toNat

/-- The radix-256 textual decode embedded in the generated unit: the init
routine of the base256 template reads runes from a buffer until it is
empty and writes one byte per rune, with no rejection branch. -/
def decode256 : List Nat → List Nat
  | [] => []
  | r :: rest => decByte256 r :: decode256 rest

/-- Encode pipeline of the base64 program variant, abstracted over the
gzip compressor (an external collaborator): `writeDirectory` compresses
the raw bytes and base64-encodes the compressed bytes. -/
def encodePipeline64 (compress : List Nat → List Nat) (b : List Nat) : List Nat :=
  encode64bytes (compress b)

/-- Decode pipeline of the base64 generated unit, abstracted over the gzip
decompressor: base64-decode the text, then decompress; a failure of either
stage is a failure of the pipeline (the generated init panics). -/
def decodePipeline64 (decompress : List Nat → Option (List Nat))
    (t : List Nat) : Option (List Nat) :=
  (decode64bytes t).bind decompress

/-- Encode pipeline of the base256 program variant, abstracted over the
gzip compressor. -/
def encodePipeline256 (compress : List Nat → List Nat) (b : List Nat) : List Nat :=
  encode256 (compress b)

/-- Decode pipeline of the base256 generated unit: the textual decode is
total, so only the decompression stage can fail. -/
def decodePipeline256 (decompress : List Nat → Option (List Nat))
    (t : List Nat) : Option (List Nat) :=
  decompress (decode256 t)

/-- One file presented to `writeDirectory` by the `filepath.Walk`
collaborator: a path together with the result of `ioutil.ReadFile`, where
`none` models a read error (directories are already skipped by the walk
callback). -/
abbrev WalkFile := List Nat × Option (List Nat)

/-- Body of the `filepath.Walk` loop of `writeDirectory` in main.go,
abstracted over the textual encoder `enc` (base64 or base256) and the
gzip compressor `comp`, which returns the bytes it produced together with
an error flag (true when the compression write or close reported an
error). On a read error the callback returns the error, which aborts the
walk and makes `writeDirectory` fail for this root; the compression error
flag is only logged and the produced bytes are encoded and stored
regardless. -/
def walkEncode (enc : List Nat → List Nat) (comp : List Nat → List Nat × Bool) :
    List WalkFile → Except Unit (List (List Nat × List Nat))
  | [] => Except.ok []
  | (_, none) :: _ => Except.error ()
  | (p, some d) :: rest =>
    (walkEncode enc comp rest).map (fun l => (p, enc (comp d).1) :: l)

/-- `writeDirectory` from main.go, restricted to the bundle it assembles:
it walks the files of one root and, when the walk succeeds, hands the
assembled path-to-text mapping to the renderer. Rendering and writing the
output file are external I/O collaborators, so the model returns the
assembled mapping itself; on a walk error the mapping is discarded and the
error is returned to the caller. -/
def writeDirectory (enc : List Nat → List Nat) (comp : List Nat → List Nat × Bool)
    (files : List WalkFile) : Except Unit (List (List Nat × List Nat)) :=
  walkEncode enc comp files

/-- The loop over root directory arguments in `main` from main.go: every
root is passed to `writeDirectory`, a per-root failure is logged with
`elog.Printf` (not `Fatalf`) and the loop continues with the remaining
roots, collecting one result per root. -/
def processRoots (enc : List Nat → List Nat) (comp : List Nat → List Nat × Bool) :
    List (List WalkFile) → List (Except Unit (List (List Nat × List Nat)))
  | [] => []
  | r :: rest => writeDirectory enc comp r :: processRoots enc comp rest

/-- Model of the `*bytes.Reader` handed out by the generated accessor:
`bytes.NewReader(data)` always yields a usable reader over `data`; the
type has no null value, matching that the Go code never returns a nil
reader. -/
structure ByteReader where
  data : List Nat
  deriving DecidableEq, Repr

/-- Reading a `ByteReader` to the end yields the bytes it was built
over. -/
def readAll (r : ByteReader) : List Nat :=
  r.data

/-- Go map lookup on the decompressed entry table of the generated unit,
modelled on an association list: the first binding of the path, if any. -/
def lookupPath : List (List Nat × List Nat) → List Nat → Option (List Nat)
  | [], _ => none
  | (q, d) :: rest, p => if q = p then some d else lookupPath rest p

/-- The generated accessor `Get<RootIdentifier>` from the template in
main.go: `data, ok := decompressed[filename]; return bytes.NewReader(data), ok`.
A missing key yields the zero value of `[]byte` (the empty byte sequence)
and `ok = false`; `bytes.NewReader` is applied in both cases. -/
def getRoot (m : List (List Nat × List Nat)) (p : List Nat) : ByteReader × Bool :=
  match lookupPath m p with
  | some d => (⟨d⟩, true)
  | none => (⟨[]⟩, false)

/-! Helper lemmas about the identifier deriver. -/

theorem goToUpper_isLetter {r : Nat} (h : goIsLetter r = true) :
    goIsLetter (goToUpper r) = true := by
  simp only [goIsLetter, goToUpper, decide_eq_true_eq] at *
  split <;> omega

theorem goToUpper_idem (r : Nat) : goToUpper (goToUpper r) = goToUpper r := by
  simp only [goToUpper]
  split
  · rw [if_neg (by omega)]
  · rfl

theorem camelizeAux_letters (b : Bool) (l : List Nat) :
    ∀ c ∈ camelizeAux b l, goIsLetter c = true := by
  induction l generalizing b with
  | nil => intro c hc; simp [camelizeAux] at hc
  | cons r rest ih =>
    intro c hc
    by_cases hr : goIsLetter r = true
    · cases b with
      | true =>
        simp only [camelizeAux, hr, if_true] at hc
        rcases List.mem_cons.mp hc with h | h
        · exact h ▸ goToUpper_isLetter hr
        · exact ih false c h
      | false =>
        simp only [camelizeAux, hr, if_true] at hc
        rcases List.mem_cons.mp hc with h | h
        · exact h ▸ hr
        · exact ih false c h
    · simp only [camelizeAux, hr] at hc
      simp only [Bool.false_eq_true, if_false] at hc
      exact ih true c hc

theorem camelizeAux_false_letters {l : List Nat} (h : ∀ c ∈ l, goIsLetter c = true) :
    camelizeAux false l = l := by
  induction l with
  | nil => rfl
  | cons r rest ih =>
    have hr := h r (List.mem_cons_self r rest)
    simp only [camelizeAux, hr, if_true]
    exact congrArg (r :: ·) (ih fun c hc => h c (List.mem_cons_of_mem r hc))

theorem camelizeAux_true_head {l : List Nat} {c : Nat} {rest : List Nat}
    (h : camelizeAux true l = c :: rest) :
    ∃ d, goIsLetter d = true ∧ c = goToUpper d := by
  induction l with
  | nil => simp [camelizeAux] at h
  | cons r t ih =>
    by_cases hr : goIsLetter r = true
    · simp only [camelizeAux, hr, if_true, List.cons.injEq] at h
      exact ⟨r, hr, h.1.symm⟩
    · simp only [camelizeAux, hr] at h
      simp only [Bool.false_eq_true, if_false] at h
      exact ih h

/-- Claim C2 (code bug evaluation): on the input string `a--b--`
(code points [97, 45, 45, 98, 45, 45]), `snakify` returns `a__b_`
(code points [97, 95, 95, 98, 95]), whose output contains the doubled
separator 95, 95 and ends with the separator 95, contradicting the claim
that the output never contains two consecutive separators and never ends
with the separator. The slip in the source is that `lastWasSnake` is never
set back to true after a separator is emitted. -/
theorem snakify_separator_violation :
    snakify [97, 45, 45, 98, 45, 45] = [97, 95, 95, 98, 95] ∧
    [95, 95] <:+: snakify [97, 45, 45, 98, 45, 45] ∧
    (snakify [97, 45, 45, 98, 45, 45]).getLast? = some 95 := by
  refine ⟨by decide, ⟨[97], [98, 95], by decide⟩, by decide⟩

/-- Claim C7: the worked examples of the spec hold:
`camelize "static" = "Static"`, `camelize "my-assets/dir" = "MyAssetsDir"`
and `snakify "my-assets/dir" = "my_assets_dir"` (strings given as their
code point sequences). -/
theorem identifier_examples :
    camelize [115, 116, 97, 116, 105, 99] = [83, 116, 97, 116, 105, 99] ∧
    camelize [109, 121, 45, 97, 115, 115, 101, 116, 115, 47, 100, 105, 114] =
      [77, 121, 65, 115, 115, 101, 116, 115, 68, 105, 114] ∧
    snakify [109, 121, 45, 97, 115, 115, 101, 116, 115, 47, 100, 105, 114] =
      [109, 121, 95, 97, 115, 115, 101, 116, 115, 95, 100, 105, 114] := by
  decide

/-- Claim C6 (counterexample): on the one-character input consisting of
the CJK ideograph with code point 35486 — a letter for `unicode.IsLetter`,
caseless, with no uppercase mapping — `camelize` returns that same
character, a non-empty output whose first character is not uppercase,
contradicting the claim that a non-empty output always starts with an
uppercase character. -/
theorem camelize_head_not_upper :
    camelize [35486] = [35486] ∧ goIsLetter 35486 = true ∧
    goIsUpper 35486 = false := by
  decide

/-- Claim C6 (amended): for every input string, the output of `camelize`
contains only alphabetic characters; if the output is non-empty, its first
character is the uppercase mapping of an alphabetic character, and it is
uppercase whenever it lies in the ASCII range — a caseless letter (such as
a CJK ideograph) is passed through unchanged and is not uppercase. -/
theorem camelize_letters_head_upper (s : List Nat) (c : Nat) (rest : List Nat)
    (h : camelize s = c :: rest) :
    (∀ x ∈ camelize s, goIsLetter x = true) ∧
    (∃ d, goIsLetter d = true ∧ c = goToUpper d) ∧
    (c ≤ 127 → goIsUpper c = true) := by
  refine ⟨camelizeAux_letters true s, camelizeAux_true_head h, ?_⟩
  obtain ⟨d, hd, rfl⟩ := camelizeAux_true_head h
  intro hc
  simp only [goIsLetter, decide_eq_true_eq] at hd
  simp only [goToUpper] at hc ⊢
  simp only [goIsUpper, decide_eq_true_eq]
  split at hc <;> split <;> omega

/-- Witness for the amended claim C6 at the input `a` (code point 97):
the head 65 of the output is the uppercase mapping of a letter and is
uppercase. -/
theorem camelize_letters_head_upper_witness :
    (∀ x ∈ camelize [97], goIsLetter x = true) ∧
    (∃ d, goIsLetter d = true ∧ 65 = goToUpper d) ∧
    (65 ≤ 127 → goIsUpper 65 = true) :=
  camelize_letters_head_upper [97] 65 [] (by decide)

/-- Claim C10: `camelize` is idempotent: applying it to its own output
returns that output unchanged. -/
theorem camelize_idempotent (s : List Nat) :
    camelize (camelize s) = camelize s := by
  unfold camelize
  rcases hout : camelizeAux true s with _ | ⟨c, rest⟩
  · rfl
  · have hletters := camelizeAux_letters true s
    rw [hout] at hletters
    obtain ⟨d, hd, rfl⟩ := camelizeAux_true_head hout
    have hc : goIsLetter (goToUpper d) = true := goToUpper_isLetter hd
    simp only [camelizeAux, hc, if_true, goToUpper_idem]
    exact congrArg (goToUpper d :: ·)
      (camelizeAux_false_letters fun x hx =>
        hletters x (List.mem_cons_of_mem _ hx))

/-! Helper lemmas about the entry codec. -/

theorem decByte256_lt (r : Nat) : decByte256 r < 256 := by
  have h1 : 0 ≤ ((r : Int) - 97) % 256 := Int.emod_nonneg _ (by norm_num)
  have h2 : ((r : Int) - 97) % 256 < 256 := Int.emod_lt_of_pos _ (by norm_num)
  simp only [decByte256]
  omega

theorem decByte256_encode {b : Nat} (hb : b < 256) : decByte256 (97 + b) = b := by
  have h : ((97 + b : Nat) : Int) - 97 = (b : Int) := by push_cast; ring
  simp only [decByte256, h]
  rw [Int.emod_eq_of_lt (by omega) (by omega)]
  omega

theorem decode256_encode256 {bs : List Nat} (hbs : ∀ x ∈ bs, x < 256) :
    decode256 (encode256 bs) = bs := by
  induction bs with
  | nil => rfl
  | cons b rest ih =>
    have hb := hbs b (List.mem_cons_self b rest)
    simp only [encode256, decode256, decByte256_encode hb]
    exact congrArg (b :: ·) (ih fun x hx => hbs x (List.mem_cons_of_mem b hx))

theorem b64val_b64char : ∀ n < 64, b64val (b64char n) = some n := by
  decide

theorem b64char_ne_pad : ∀ n < 64, b64char n ≠ 61 := by
  decide

/-- Claim C9: the radix-256 textual decode embedded in the generated unit
is total: it has no rejection branch, and for every input string it maps
each character independently to one byte, the code point minus 97 (the
code point of the letter a) truncated to 8 bits; every emitted value is a
byte, i.e. below 256. -/
theorem decode256_total (t : List Nat) :
    decode256 t = t.map decByte256 ∧
    (decode256 t).all (fun b => decide (b < 256)) = true := by
  constructor
  · induction t with
    | nil => rfl
    | cons r rest ih => simp only [decode256, List.map, ih]
  · rw [List.all_eq_true]
    intro b hb
    induction t with
    | nil => simp [decode256] at hb
    | cons r rest ih =>
      simp only [decode256, List.mem_cons] at hb
      rcases hb with h | h
      · simpa [h] using decByte256_lt r
      · exact ih h

theorem decode64_encode64 {bs : List Nat} (hbs : ∀ x ∈ bs, x < 256) :
    decode64bytes (encode64bytes bs) = some bs := by
  induction bs using encode64bytes.induct with
  | case1 => rfl
  | case2 a =>
    have ha : a < 256 := hbs a (by simp)
    simp only [encode64bytes, decode64bytes]
    rw [b64val_b64char _ (by omega), b64val_b64char _ (by omega)]
    simp only [Option.some_bind, if_pos rfl, and_self, if_true]
    refine congrArg (fun x => some [x]) ?_
    omega
  | case3 a b =>
    have ha : a < 256 := hbs a (by simp)
    have hb : b < 256 := hbs b (by simp)
    simp only [encode64bytes, decode64bytes]
    rw [b64val_b64char _ (by omega), b64val_b64char _ (by omega)]
    simp only [Option.some_bind]
    rw [if_neg (b64char_ne_pad _ (by omega))]
    rw [b64val_b64char _ (by omega)]
    simp only [Option.some_bind, if_pos rfl, if_true]
    refine congrArg (fun x => some x) ?_
    refine congrArg₂ (· :: ·) (by omega) ?_
    refine congrArg₂ (· :: ·) (by omega) rfl
  | case4 a b c rest ih =>
    have ha : a < 256 := hbs a (by simp)
    have hb : b < 256 := hbs b (by simp)
    have hc : c < 256 := hbs c (by simp)
    have hrest : ∀ x ∈ rest, x < 256 := fun x hx => hbs x (by simp [hx])
    simp only [encode64bytes, decode64bytes]
    rw [b64val_b64char _ (by omega), b64val_b64char _ (by omega)]
    simp only [Option.some_bind]
    rw [if_neg (b64char_ne_pad _ (by omega))]
    rw [b64val_b64char _ (by omega)]
    simp only [Option.some_bind]
    rw [if_neg (b64char_ne_pad _ (by omega))]
    rw [b64val_b64char _ (by omega)]
    simp only [Option.some_bind]
    rw [ih hrest]
    simp only [Option.map_some']
    refine congrArg (fun x => some x) ?_
    refine congrArg₂ (· :: ·) (by omega) ?_
    refine congrArg₂ (· :: ·) (by omega) ?_
    refine congrArg₂ (· :: ·) (by omega) rfl

/-- Claim C1: the decode pipeline of the generated unit (textual decode,
then gzip decompression) is a left inverse of the encode pipeline of the
generator (gzip compression, then textual encoding) on every byte
sequence, for both the radix-64 and the radix-256 encoding variant. The
gzip collaborator is external to the repository and enters as any
compressor and decompressor pair satisfying the lossless interface
contract of the spec, with the compressor producing bytes. -/
theorem pipeline_roundtrip (compress : List Nat → List Nat)
    (decompress : List Nat → Option (List Nat))
    (hinv : ∀ bs, decompress (compress bs) = some bs)
    (b : List Nat) (_hb : ∀ x ∈ b, x < 256)
    (hcb : ∀ x ∈ compress b, x < 256) :
    decodePipeline64 decompress (encodePipeline64 compress b) = some b ∧
    decodePipeline256 decompress (encodePipeline256 compress b) = some b := by
  constructor
  · simp only [decodePipeline64, encodePipeline64, decode64_encode64 hcb,
      Option.some_bind]
    exact hinv b
  · simp only [decodePipeline256, encodePipeline256, decode256_encode256 hcb]
    exact hinv b

/-- Witness for claim C1: with the identity compressor (a lossless
compressor and decompressor pair) both pipelines round-trip the concrete
byte sequence [0, 255, 97, 10]. -/
theorem pipeline_roundtrip_witness :
    decodePipeline64 (fun l => some l)
      (encodePipeline64 (fun l => l) [0, 255, 97, 10]) = some [0, 255, 97, 10] ∧
    decodePipeline256 (fun l => some l)
      (encodePipeline256 (fun l => l) [0, 255, 97, 10]) = some [0, 255, 97, 10] :=
  pipeline_roundtrip (fun l => l) (fun l => some l) (fun _ => rfl)
    [0, 255, 97, 10] (by decide) (by decide)

/-! Helper lemmas about the bundle builder. -/

theorem processRoots_eq_map (enc : List Nat → List Nat)
    (comp : List Nat → List Nat × Bool) (roots : List (List WalkFile)) :
    processRoots enc comp roots = roots.map (writeDirectory enc comp) := by
  induction roots with
  | nil => rfl
  | cons r rest ih => simp only [processRoots, List.map, ih]

theorem walkEncode_error_of_read_fail (enc : List Nat → List Nat)
    (comp : List Nat → List Nat × Bool) {files : List WalkFile}
    (hfail : ∃ f ∈ files, f.2 = none) :
    walkEncode enc comp files = Except.error () := by
  induction files with
  | nil => simp at hfail
  | cons f rest ih =>
    obtain ⟨g, hg, hgnone⟩ := hfail
    obtain ⟨p0, od⟩ := f
    cases od with
    | none => rfl
    | some e =>
      rcases List.mem_cons.mp hg with h | h
      · rw [h] at hgnone; simp at hgnone
      · simp only [walkEncode, ih ⟨g, h, hgnone⟩]; rfl

theorem walkEncode_ok_entries (enc : List Nat → List Nat)
    (comp : List Nat → List Nat × Bool) (files : List WalkFile)
    (hreads : ∀ f ∈ files, f.2 ≠ none) :
    ∃ l, walkEncode enc comp files = Except.ok l ∧
      ∀ p d, (p, some d) ∈ files → (p, enc (comp d).1) ∈ l := by
  induction files with
  | nil => exact ⟨[], rfl, by simp⟩
  | cons f rest ih =>
    obtain ⟨p0, od⟩ := f
    cases od with
    | none => exact absurd rfl (hreads (p0, none) (List.mem_cons_self _ _))
    | some e =>
      obtain ⟨l, hl, hent⟩ := ih fun g hg => hreads g (List.mem_cons_of_mem _ hg)
      refine ⟨(p0, enc (comp e).1) :: l, ?_, ?_⟩
      · simp only [walkEncode, hl]; rfl
      · intro p d hmem
        rcases List.mem_cons.mp hmem with h | h
        · injection h with hp hd
          injection hd with hd
          subst hp; subst hd
          exact List.mem_cons_self _ _
        · exact List.mem_cons_of_mem _ (hent p d h)

/-- Claim C4: when a file read error occurs inside one root directory, the
builder for that root fails: its result is the error (so the failing file
never reaches a Bundle and the root-level build is reported as failed to
the caller in `main`), while the result for every root `j` in the same
invocation is exactly `writeDirectory` applied to that root alone, so the
processing of each root is independent of the failure. -/
theorem read_error_containment (enc : List Nat → List Nat)
    (comp : List Nat → List Nat × Bool) (roots : List (List WalkFile))
    (i j : Nat) (r : List WalkFile)
    (hmem : roots[i]? = some r) (hfail : ∃ f ∈ r, f.2 = none) :
    (processRoots enc comp roots)[i]? = some (Except.error ()) ∧
    (processRoots enc comp roots)[j]? =
      (roots[j]?).map (writeDirectory enc comp) := by
  constructor
  · rw [processRoots_eq_map, List.getElem?_map, hmem, Option.map_some']
    exact congrArg some (walkEncode_error_of_read_fail enc comp hfail)
  · rw [processRoots_eq_map, List.getElem?_map]

/-- Witness for claim C4: of two concrete roots, the second contains a
file whose read fails; its result slot holds the error while the first
root is processed independently. -/
theorem read_error_containment_witness :
    (processRoots (fun l => l) (fun d => (d, false))
      [[([107], some [1])], [([108], (none : Option (List Nat)))]])[1]? =
      some (Except.error ()) ∧
    (processRoots (fun l => l) (fun d => (d, false))
      [[([107], some [1])], [([108], (none : Option (List Nat)))]])[0]? =
      ([[([107], some [1])], [([108], (none : Option (List Nat)))]][0]?).map
        (writeDirectory (fun l => l) (fun d => (d, false))) :=
  read_error_containment _ _ _ 1 0 [([108], none)] rfl
    ⟨([108], none), List.mem_cons_self _ _, rfl⟩

/-- Claim C5: a compression write or close failure is non-fatal. The
compressor is any function returning produced bytes together with an
error flag; whatever the flag says, the build of a root whose files all
read correctly completes with a Bundle in which every file is stored
under its path with the textual encoding of the bytes the compressor
produced — the partial output is still encoded and stored. -/
theorem compress_error_nonfatal (enc : List Nat → List Nat)
    (comp : List Nat → List Nat × Bool) (files : List WalkFile)
    (p d : List Nat) (hreads : ∀ f ∈ files, f.2 ≠ none)
    (hmem : (p, some d) ∈ files) :
    ∃ l, writeDirectory enc comp files = Except.ok l ∧
      (p, enc (comp d).1) ∈ l := by
  obtain ⟨l, hl, hent⟩ := walkEncode_ok_entries enc comp files hreads
  exact ⟨l, hl, hent p d hmem⟩

/-- Witness for claim C5: a concrete compressor that truncates its input
to one byte and reports an error; the build still succeeds and stores the
encoding of the partial output for the file. -/
theorem compress_error_nonfatal_witness :
    ∃ l, writeDirectory (fun x => x) (fun x => (x.take 1, true))
      [([5], some [7, 8])] = Except.ok l ∧ ([5], [7]) ∈ l :=
  compress_error_nonfatal _ _ _ [5] [7, 8] (by decide) (by decide)

/-- Claim C8: for every lookup path not present in the decompressed
table, the generated accessor returns found equal to false together with
a reader (never a null value: the model type has none) over the empty
byte sequence. -/
theorem get_missing_path (m : List (List Nat × List Nat)) (p : List Nat)
    (h : lookupPath m p = none) :
    getRoot m p = (⟨[]⟩, false) ∧ readAll (getRoot m p).1 = [] := by
  simp [getRoot, h, readAll]

/-- Witness for claim C8: a concrete one-entry table and a path not bound
in it. -/
theorem get_missing_path_witness :
    getRoot [([1], [2])] [3] = (⟨[]⟩, false) ∧
    readAll (getRoot [([1], [2])] [3]).1 = [] :=
  get_missing_path [([1], [2])] [3] (by decide)

end Gostatic
